import Mathlib

/-!
Verification of the compile-time partial-evaluation pass over the Mir IR
(`src/mir/evaluate.rs`).  The IR node vocabulary is embedded as mutual
inductives; the pass is embedded as a fuel-indexed evaluator returning
`Except EvalError` (the Rust code can diverge on compile-time
self-application and panics on assertion failures, `todo!()` stubs, and
Effect/Handle nodes, so the embedding makes those outcomes explicit errors).
-/

namespace MirEval

/-- Modelled from the spec: `DefinitionId` is an opaque unique key identifying
a variable binding (spec section 3); rendered as `Nat`. -/
abbrev DefinitionId := Nat

mutual

/-- Modelled from the spec: `Atom` leaf value forms (spec section 3): Literal
(inert, payload opaque), Variable(DefinitionId), Lambda (ordered parameter
list of DefinitionIds, owned body expression, compile_time flag), Extern
(inert external symbol, rendered `foreign`), Effect (forbidden at this stage).
The evaluator in `evaluate.rs` only reads `arg.definition_id` from lambda
parameters, so parameters are embedded as bare DefinitionIds. -/
inductive Atom : Type where
  | literal (value : Nat)
  | var (definition_id : DefinitionId)
  | lambda (args : List DefinitionId) (body : Ast) (compile_time : Bool)
  | foreign (symbol : Nat)
  | effect (id : Nat)

/-- Modelled from the spec: composite expression forms (`Ast`, spec section
3): an Atom wrapper; FunctionCall (function-position Atom, ordered argument
Atoms, compile_time flag); Let (bound variable, expr, body); If; Match
(DecisionTree plus ordered branch expressions); Return; Assignment;
MemberAccess; Tuple; Builtin; Handle (forbidden at this stage).  Field
selectors and Handle payloads are opaque. -/
inductive Ast : Type where
  | atom (a : Atom)
  | functionCall (function : Atom) (args : List Atom) (compile_time : Bool)
  | letE (vid : DefinitionId) (expr : Ast) (body : Ast)
  | ifE (condition : Atom) (thenBranch : Ast) (otherwise : Ast)
  | matchE (decision_tree : DecisionTree) (branches : List Ast)
  | ret (expression : Atom)
  | assignment (lhs : Atom) (rhs : Atom)
  | memberAccess (lhs : Atom) (field : Nat)
  | tuple (fields : List Ast)
  | builtin (b : Builtin)
  | handle (h : Nat)

/-- Modelled from the spec: `DecisionTree` forms (spec section 3): Leaf
(terminal outcome selecting a branch), Let (introduces a pattern-derived
binding then recurses into a subtree), Switch (discriminant Atom, ordered
(value, subtree) cases, default subtree). -/
inductive DecisionTree : Type where
  | leaf (branch : Nat)
  | letD (vid : DefinitionId) (rest : DecisionTree)
  | switch (int_to_switch_on : Atom) (cases : List (Nat × DecisionTree))
      (else_case : DecisionTree)

/-- The fixed builtin catalog of `mir::Builtin` exactly as matched in
`evaluate.rs` lines 184-223: two-operand arithmetic/comparison/bitwise
forms, one-operand forms, one-operand-plus-type-descriptor conversion
forms, and `Offset` with two operands plus a type descriptor.  Type
descriptors are opaque (`Nat`). -/
inductive Builtin : Type where
  | AddInt (lhs rhs : Atom)
  | AddFloat (lhs rhs : Atom)
  | SubInt (lhs rhs : Atom)
  | SubFloat (lhs rhs : Atom)
  | MulInt (lhs rhs : Atom)
  | MulFloat (lhs rhs : Atom)
  | DivSigned (lhs rhs : Atom)
  | DivUnsigned (lhs rhs : Atom)
  | DivFloat (lhs rhs : Atom)
  | ModSigned (lhs rhs : Atom)
  | ModUnsigned (lhs rhs : Atom)
  | ModFloat (lhs rhs : Atom)
  | LessSigned (lhs rhs : Atom)
  | LessUnsigned (lhs rhs : Atom)
  | LessFloat (lhs rhs : Atom)
  | EqInt (lhs rhs : Atom)
  | EqFloat (lhs rhs : Atom)
  | EqChar (lhs rhs : Atom)
  | EqBool (lhs rhs : Atom)
  | SignExtend (lhs : Atom) (typ : Nat)
  | ZeroExtend (lhs : Atom) (typ : Nat)
  | SignedToFloat (lhs : Atom) (typ : Nat)
  | UnsignedToFloat (lhs : Atom) (typ : Nat)
  | FloatToSigned (lhs : Atom) (typ : Nat)
  | FloatToUnsigned (lhs : Atom) (typ : Nat)
  | FloatPromote (lhs : Atom) (typ : Nat)
  | FloatDemote (lhs : Atom) (typ : Nat)
  | BitwiseAnd (lhs rhs : Atom)
  | BitwiseOr (lhs rhs : Atom)
  | BitwiseXor (lhs rhs : Atom)
  | BitwiseNot (lhs : Atom)
  | StackAlloc (lhs : Atom)
  | Truncate (lhs : Atom) (typ : Nat)
  | Deref (lhs : Atom) (typ : Nat)
  | Transmute (lhs : Atom) (typ : Nat)
  | Offset (lhs rhs : Atom) (typ : Nat)

end

/-- The substitution environment `im::HashMap<DefinitionId, Atom>` modelled
as a total function to `Option Atom` (persistent map semantics: `insert`
overwrites, `remove` deletes, lookups elsewhere unchanged). -/
def Substitutions : Type := DefinitionId → Option Atom

/-- The empty substitution map (`im::HashMap::new()`). -/
def Substitutions.empty : Substitutions := fun _ => none

/-- Lookup (`substitutions.get(&id)`). -/
def Substitutions.get (s : Substitutions) (id : DefinitionId) : Option Atom := s id

/-- Insertion (`substitutions.insert(id, atom)`), overwriting any previous
binding for `id`. -/
def Substitutions.insert (s : Substitutions) (id : DefinitionId) (a : Atom) :
    Substitutions :=
  fun x => if x = id then some a else s x

/-- Removal (`substitutions.remove(&id)`). -/
def Substitutions.remove (s : Substitutions) (id : DefinitionId) : Substitutions :=
  fun x => if x = id then none else s x

/-- The parameter-removal loop of `Evaluate for mir::Lambda` (evaluate.rs
lines 61-63): remove every parameter id from the environment. -/
def removeAll (args : List DefinitionId) (s : Substitutions) : Substitutions :=
  args.foldl (fun acc id => acc.remove id) s

/-- The binding-insertion loop of the inlining branch of
`Evaluate for mir::FunctionCall` (evaluate.rs lines 86-88): insert one
binding per (parameter id, evaluated argument), in order. -/
def insertAll (params : List DefinitionId) (args : List Atom) (s : Substitutions) :
    Substitutions :=
  (params.zip args).foldl (fun acc pa => acc.insert pa.1 pa.2) s

/-- Fatal outcomes of the pass: the Rust code panics on arity assertion
failure, on the `todo!()` decision-tree stub, and on Effect/Handle nodes;
`outOfFuel` is the embedding's marker for non-termination of the (fuel-free)
Rust recursion. -/
inductive EvalError : Type where
  | arityMismatch
  | effectBeforeCps
  | handleBeforeCps
  | decisionTreeTodo
  | outOfFuel
deriving DecidableEq, Repr

/-- Whether an evaluation produced a result (as opposed to a panic in the
Rust original). -/
def isOk {α : Type} : Except EvalError α → Bool
  | .ok _ => true
  | .error _ => false

/-- Error-propagating map over a list, mirroring `fmap` from `crate::util`
under the panic-as-error embedding: the first panicking element aborts. -/
def mapME {α β : Type} (f : α → Except EvalError β) : List α → Except EvalError (List β)
  | [] => .ok []
  | x :: xs =>
    match f x with
    | .error e => .error e
    | .ok y =>
      match mapME f xs with
      | .error e => .error e
      | .ok ys => .ok (y :: ys)

/-- The `both` helper of `Evaluate for mir::Builtin` (evaluate.rs lines
167-171): rebuild a two-operand builtin from its evaluated operands,
propagating panics. -/
def mkBoth (mk : Atom → Atom → Builtin) (l r : Except EvalError Atom) :
    Except EvalError Ast :=
  match l, r with
  | .ok l2, .ok r2 => .ok (.builtin (mk l2 r2))
  | .error e, _ => .error e
  | _, .error e => .error e

/-- The `one` helper of `Evaluate for mir::Builtin` (evaluate.rs lines
178-181). -/
def mkOne (mk : Atom → Builtin) (l : Except EvalError Atom) : Except EvalError Ast :=
  match l with
  | .ok l2 => .ok (.builtin (mk l2))
  | .error e => .error e

/-- The `one_with_type` helper of `Evaluate for mir::Builtin` (evaluate.rs
lines 173-176): the type descriptor passes through unevaluated. -/
def mkOneTy (mk : Atom → Nat → Builtin) (l : Except EvalError Atom) (typ : Nat) :
    Except EvalError Ast :=
  match l with
  | .ok l2 => .ok (.builtin (mk l2 typ))
  | .error e => .error e

/-- The inline `Offset` arm of `Evaluate for mir::Builtin` (evaluate.rs
lines 219-223): two evaluated operands, type descriptor passed through. -/
def mkBothTy (mk : Atom → Atom → Nat → Builtin) (l r : Except EvalError Atom)
    (typ : Nat) : Except EvalError Ast :=
  match l, r with
  | .ok l2, .ok r2 => .ok (.builtin (mk l2 r2 typ))
  | .error e, _ => .error e
  | _, .error e => .error e

/-- `evaluate_decision_tree` (evaluate.rs lines 126-132): every arm of the
match is `todo!()`, i.e. a panic, for all three DecisionTree forms. -/
def evalTree (tree : DecisionTree) (_s : Substitutions) :
    Except EvalError DecisionTree :=
  match tree with
  | .leaf _ => .error .decisionTreeTodo
  | .letD _ _ => .error .decisionTreeTodo
  | .switch _ _ _ => .error .decisionTreeTodo

mutual

/-- The `Evaluate<Atom>` dispatch over Atom variants: Literal and Extern are
identities (lines 40-44, 70-74), Variable is a single non-recursive lookup
(lines 46-53), Lambda prunes its own parameter ids before reducing its body
(lines 55-68), Effect panics (lines 228-232). -/
def evalAtom : Nat → Atom → Substitutions → Except EvalError Atom
  | 0, _, _ => .error .outOfFuel
  | _ + 1, .literal l, _ => .ok (.literal l)
  | _ + 1, .var id, s =>
    match s.get id with
    | some a => .ok a
    | none => .ok (.var id)
  | fuel + 1, .lambda args body ct, s =>
    match evalAst fuel body (removeAll args s) with
    | .error e => .error e
    | .ok body2 => .ok (.lambda args body2 ct)
  | _ + 1, .foreign x, _ => .ok (.foreign x)
  | _ + 1, .effect _, _ => .error .effectBeforeCps

/-- The `Evaluate<Ast>` dispatch over Ast variants (evaluate.rs lines
22-226): structural recursion under the same environment everywhere except
the FunctionCall inlining branch, which extends the environment with one
binding per (parameter, evaluated argument) and re-reduces the candidate
under the caller's original environment; Handle panics (lines 234-238). -/
def evalAst : Nat → Ast → Substitutions → Except EvalError Ast
  | 0, _, _ => .error .outOfFuel
  | fuel + 1, .atom a, s =>
    match evalAtom fuel a s with
    | .error e => .error e
    | .ok a2 => .ok (.atom a2)
  | fuel + 1, .functionCall f args ct, s =>
    match evalAtom fuel f s with
    | .error e => .error e
    | .ok f2 =>
      match mapME (fun a => evalAtom fuel a s) args with
      | .error e => .error e
      | .ok args2 =>
        match f2 with
        | .lambda params body lct =>
          if lct || ct then
            if params.length = args2.length then
              match evalAst fuel body (insertAll params args2 s) with
              | .error e => .error e
              | .ok cand => evalAst fuel cand s
            else .error .arityMismatch
          else .ok (.functionCall (.lambda params body lct) args2 ct)
        | f3 => .ok (.functionCall f3 args2 ct)
  | fuel + 1, .letE vid expr body, s =>
    match evalAst fuel expr s with
    | .error e => .error e
    | .ok expr2 =>
      match evalAst fuel body s with
      | .error e => .error e
      | .ok body2 => .ok (.letE vid expr2 body2)
  | fuel + 1, .ifE c t e, s =>
    match evalAtom fuel c s with
    | .error err => .error err
    | .ok c2 =>
      match evalAst fuel t s with
      | .error err => .error err
      | .ok t2 =>
        match evalAst fuel e s with
        | .error err => .error err
        | .ok e2 => .ok (.ifE c2 t2 e2)
  | fuel + 1, .matchE tree branches, s =>
    match evalTree tree s with
    | .error e => .error e
    | .ok tree2 =>
      match mapME (fun b => evalAst fuel b s) branches with
      | .error e => .error e
      | .ok branches2 => .ok (.matchE tree2 branches2)
  | fuel + 1, .ret x, s =>
    match evalAtom fuel x s with
    | .error e => .error e
    | .ok x2 => .ok (.ret x2)
  | fuel + 1, .assignment l r, s =>
    match evalAtom fuel l s with
    | .error e => .error e
    | .ok l2 =>
      match evalAtom fuel r s with
      | .error e => .error e
      | .ok r2 => .ok (.assignment l2 r2)
  | fuel + 1, .memberAccess l fld, s =>
    match evalAtom fuel l s with
    | .error e => .error e
    | .ok l2 => .ok (.memberAccess l2 fld)
  | fuel + 1, .tuple fields, s =>
    match mapME (fun f => evalAst fuel f s) fields with
    | .error e => .error e
    | .ok fields2 => .ok (.tuple fields2)
  | fuel + 1, .builtin b, s =>
    match b with
    | .AddInt l r => mkBoth .AddInt (evalAtom fuel l s) (evalAtom fuel r s)
    | .AddFloat l r => mkBoth .AddFloat (evalAtom fuel l s) (evalAtom fuel r s)
    | .SubInt l r => mkBoth .SubInt (evalAtom fuel l s) (evalAtom fuel r s)
    | .SubFloat l r => mkBoth .SubFloat (evalAtom fuel l s) (evalAtom fuel r s)
    | .MulInt l r => mkBoth .MulInt (evalAtom fuel l s) (evalAtom fuel r s)
    | .MulFloat l r => mkBoth .MulFloat (evalAtom fuel l s) (evalAtom fuel r s)
    | .DivSigned l r => mkBoth .DivSigned (evalAtom fuel l s) (evalAtom fuel r s)
    | .DivUnsigned l r => mkBoth .DivUnsigned (evalAtom fuel l s) (evalAtom fuel r s)
    | .DivFloat l r => mkBoth .DivFloat (evalAtom fuel l s) (evalAtom fuel r s)
    | .ModSigned l r => mkBoth .ModSigned (evalAtom fuel l s) (evalAtom fuel r s)
    | .ModUnsigned l r => mkBoth .ModUnsigned (evalAtom fuel l s) (evalAtom fuel r s)
    | .ModFloat l r => mkBoth .ModFloat (evalAtom fuel l s) (evalAtom fuel r s)
    | .LessSigned l r => mkBoth .LessSigned (evalAtom fuel l s) (evalAtom fuel r s)
    | .LessUnsigned l r => mkBoth .LessUnsigned (evalAtom fuel l s) (evalAtom fuel r s)
    | .LessFloat l r => mkBoth .LessFloat (evalAtom fuel l s) (evalAtom fuel r s)
    | .EqInt l r => mkBoth .EqInt (evalAtom fuel l s) (evalAtom fuel r s)
    | .EqFloat l r => mkBoth .EqFloat (evalAtom fuel l s) (evalAtom fuel r s)
    | .EqChar l r => mkBoth .EqChar (evalAtom fuel l s) (evalAtom fuel r s)
    | .EqBool l r => mkBoth .EqBool (evalAtom fuel l s) (evalAtom fuel r s)
    | .SignExtend l t => mkOneTy .SignExtend (evalAtom fuel l s) t
    | .ZeroExtend l t => mkOneTy .ZeroExtend (evalAtom fuel l s) t
    | .SignedToFloat l t => mkOneTy .SignedToFloat (evalAtom fuel l s) t
    | .UnsignedToFloat l t => mkOneTy .UnsignedToFloat (evalAtom fuel l s) t
    | .FloatToSigned l t => mkOneTy .FloatToSigned (evalAtom fuel l s) t
    | .FloatToUnsigned l t => mkOneTy .FloatToUnsigned (evalAtom fuel l s) t
    | .FloatPromote l t => mkOneTy .FloatPromote (evalAtom fuel l s) t
    | .FloatDemote l t => mkOneTy .FloatDemote (evalAtom fuel l s) t
    | .BitwiseAnd l r => mkBoth .BitwiseAnd (evalAtom fuel l s) (evalAtom fuel r s)
    | .BitwiseOr l r => mkBoth .BitwiseOr (evalAtom fuel l s) (evalAtom fuel r s)
    | .BitwiseXor l r => mkBoth .BitwiseXor (evalAtom fuel l s) (evalAtom fuel r s)
    | .BitwiseNot l => mkOne .BitwiseNot (evalAtom fuel l s)
    | .StackAlloc l => mkOne .StackAlloc (evalAtom fuel l s)
    | .Truncate l t => mkOneTy .Truncate (evalAtom fuel l s) t
    | .Deref l t => mkOneTy .Deref (evalAtom fuel l s) t
    | .Transmute l t => mkOneTy .Transmute (evalAtom fuel l s) t
    | .Offset l r t => mkBothTy .Offset (evalAtom fuel l s) (evalAtom fuel r s) t
  | _ + 1, .handle _, _ => .error .handleBeforeCps

end

/-- Modelled from the spec: the program is a collection of functions keyed
by identity (spec sections 2 and 3); `mir::Mir`'s definition is not in the
provided sources, only its use in `evaluate_static_calls`. -/
structure Mir : Type where
  functions : List (DefinitionId × Ast)

/-- `Mir::evaluate_static_calls` (evaluate.rs lines 6-13): evaluate every
function under an empty substitution environment, keeping its key; a panic
in any function aborts the pass. -/
def evaluateStaticCalls (fuel : Nat) (m : Mir) : Except EvalError Mir :=
  match mapME (fun f : DefinitionId × Ast =>
      match evalAst fuel f.2 Substitutions.empty with
      | .error e => .error e
      | .ok a => .ok (f.1, a)) m.functions with
  | .error e => .error e
  | .ok fs => .ok ⟨fs⟩

mutual

/-- Whether an Atom syntactically contains an Effect atom or a Handle
expression anywhere (including inside lambda bodies). -/
def containsAtom : Atom → Bool
  | .literal _ => false
  | .var _ => false
  | .lambda _ body _ => containsAst body
  | .foreign _ => false
  | .effect _ => true

/-- Whether an Ast syntactically contains an Effect atom or a Handle
expression anywhere. -/
def containsAst : Ast → Bool
  | .atom a => containsAtom a
  | .functionCall f args _ => containsAtom f || containsAtomList args
  | .letE _ e b => containsAst e || containsAst b
  | .ifE c t e => containsAtom c || (containsAst t || containsAst e)
  | .matchE tree branches => containsTree tree || containsAstList branches
  | .ret x => containsAtom x
  | .assignment l r => containsAtom l || containsAtom r
  | .memberAccess l _ => containsAtom l
  | .tuple fields => containsAstList fields
  | .builtin b => containsBuiltin b
  | .handle _ => true

/-- Effect/Handle containment for a list of Atoms. -/
def containsAtomList : List Atom → Bool
  | [] => false
  | a :: rest => containsAtom a || containsAtomList rest

/-- Effect/Handle containment for a list of Asts. -/
def containsAstList : List Ast → Bool
  | [] => false
  | a :: rest => containsAst a || containsAstList rest

/-- Effect/Handle containment for a DecisionTree. -/
def containsTree : DecisionTree → Bool
  | .leaf _ => false
  | .letD _ rest => containsTree rest
  | .switch a cases els => containsAtom a || (containsTreeCases cases || containsTree els)

/-- Effect/Handle containment for the case list of a Switch. -/
def containsTreeCases : List (Nat × DecisionTree) → Bool
  | [] => false
  | c :: rest => containsTree c.2 || containsTreeCases rest

/-- Effect/Handle containment for the operands of a Builtin. -/
def containsBuiltin : Builtin → Bool
  | .AddInt l r => containsAtom l || containsAtom r
  | .AddFloat l r => containsAtom l || containsAtom r
  | .SubInt l r => containsAtom l || containsAtom r
  | .SubFloat l r => containsAtom l || containsAtom r
  | .MulInt l r => containsAtom l || containsAtom r
  | .MulFloat l r => containsAtom l || containsAtom r
  | .DivSigned l r => containsAtom l || containsAtom r
  | .DivUnsigned l r => containsAtom l || containsAtom r
  | .DivFloat l r => containsAtom l || containsAtom r
  | .ModSigned l r => containsAtom l || containsAtom r
  | .ModUnsigned l r => containsAtom l || containsAtom r
  | .ModFloat l r => containsAtom l || containsAtom r
  | .LessSigned l r => containsAtom l || containsAtom r
  | .LessUnsigned l r => containsAtom l || containsAtom r
  | .LessFloat l r => containsAtom l || containsAtom r
  | .EqInt l r => containsAtom l || containsAtom r
  | .EqFloat l r => containsAtom l || containsAtom r
  | .EqChar l r => containsAtom l || containsAtom r
  | .EqBool l r => containsAtom l || containsAtom r
  | .SignExtend l _ => containsAtom l
  | .ZeroExtend l _ => containsAtom l
  | .SignedToFloat l _ => containsAtom l
  | .UnsignedToFloat l _ => containsAtom l
  | .FloatToSigned l _ => containsAtom l
  | .FloatToUnsigned l _ => containsAtom l
  | .FloatPromote l _ => containsAtom l
  | .FloatDemote l _ => containsAtom l
  | .BitwiseAnd l r => containsAtom l || containsAtom r
  | .BitwiseOr l r => containsAtom l || containsAtom r
  | .BitwiseXor l r => containsAtom l || containsAtom r
  | .BitwiseNot l => containsAtom l
  | .StackAlloc l => containsAtom l
  | .Truncate l _ => containsAtom l
  | .Deref l _ => containsAtom l
  | .Transmute l _ => containsAtom l
  | .Offset l r _ => containsAtom l || containsAtom r

end

/-- Whether any function of the program syntactically contains an Effect
atom or a Handle expression. -/
def containsMir (m : Mir) : Bool := m.functions.any (fun f => containsAst f.2)

/-- The operation tag of a Builtin, discarding operands and type
descriptors: one value per catalog entry. -/
inductive BuiltinKind : Type where
  | AddInt | AddFloat | SubInt | SubFloat | MulInt | MulFloat
  | DivSigned | DivUnsigned | DivFloat | ModSigned | ModUnsigned | ModFloat
  | LessSigned | LessUnsigned | LessFloat | EqInt | EqFloat | EqChar | EqBool
  | SignExtend | ZeroExtend | SignedToFloat | UnsignedToFloat
  | FloatToSigned | FloatToUnsigned | FloatPromote | FloatDemote
  | BitwiseAnd | BitwiseOr | BitwiseXor | BitwiseNot | StackAlloc
  | Truncate | Deref | Transmute | Offset
deriving DecidableEq, Repr

/-- The operation tag of a Builtin node. -/
def builtinKind : Builtin → BuiltinKind
  | .AddInt _ _ => .AddInt
  | .AddFloat _ _ => .AddFloat
  | .SubInt _ _ => .SubInt
  | .SubFloat _ _ => .SubFloat
  | .MulInt _ _ => .MulInt
  | .MulFloat _ _ => .MulFloat
  | .DivSigned _ _ => .DivSigned
  | .DivUnsigned _ _ => .DivUnsigned
  | .DivFloat _ _ => .DivFloat
  | .ModSigned _ _ => .ModSigned
  | .ModUnsigned _ _ => .ModUnsigned
  | .ModFloat _ _ => .ModFloat
  | .LessSigned _ _ => .LessSigned
  | .LessUnsigned _ _ => .LessUnsigned
  | .LessFloat _ _ => .LessFloat
  | .EqInt _ _ => .EqInt
  | .EqFloat _ _ => .EqFloat
  | .EqChar _ _ => .EqChar
  | .EqBool _ _ => .EqBool
  | .SignExtend _ _ => .SignExtend
  | .ZeroExtend _ _ => .ZeroExtend
  | .SignedToFloat _ _ => .SignedToFloat
  | .UnsignedToFloat _ _ => .UnsignedToFloat
  | .FloatToSigned _ _ => .FloatToSigned
  | .FloatToUnsigned _ _ => .FloatToUnsigned
  | .FloatPromote _ _ => .FloatPromote
  | .FloatDemote _ _ => .FloatDemote
  | .BitwiseAnd _ _ => .BitwiseAnd
  | .BitwiseOr _ _ => .BitwiseOr
  | .BitwiseXor _ _ => .BitwiseXor
  | .BitwiseNot _ => .BitwiseNot
  | .StackAlloc _ => .StackAlloc
  | .Truncate _ _ => .Truncate
  | .Deref _ _ => .Deref
  | .Transmute _ _ => .Transmute
  | .Offset _ _ _ => .Offset

/-- The attached type descriptor of a Builtin node, when it has one. -/
def builtinTypeArg : Builtin → Option Nat
  | .SignExtend _ t => some t
  | .ZeroExtend _ t => some t
  | .SignedToFloat _ t => some t
  | .UnsignedToFloat _ t => some t
  | .FloatToSigned _ t => some t
  | .FloatToUnsigned _ t => some t
  | .FloatPromote _ t => some t
  | .FloatDemote _ t => some t
  | .Truncate _ t => some t
  | .Deref _ t => some t
  | .Transmute _ t => some t
  | .Offset _ _ t => some t
  | _ => none

/-- The ordered operand Atoms of a Builtin node. -/
def builtinOperands : Builtin → List Atom
  | .AddInt l r => [l, r]
  | .AddFloat l r => [l, r]
  | .SubInt l r => [l, r]
  | .SubFloat l r => [l, r]
  | .MulInt l r => [l, r]
  | .MulFloat l r => [l, r]
  | .DivSigned l r => [l, r]
  | .DivUnsigned l r => [l, r]
  | .DivFloat l r => [l, r]
  | .ModSigned l r => [l, r]
  | .ModUnsigned l r => [l, r]
  | .ModFloat l r => [l, r]
  | .LessSigned l r => [l, r]
  | .LessUnsigned l r => [l, r]
  | .LessFloat l r => [l, r]
  | .EqInt l r => [l, r]
  | .EqFloat l r => [l, r]
  | .EqChar l r => [l, r]
  | .EqBool l r => [l, r]
  | .SignExtend l _ => [l]
  | .ZeroExtend l _ => [l]
  | .SignedToFloat l _ => [l]
  | .UnsignedToFloat l _ => [l]
  | .FloatToSigned l _ => [l]
  | .FloatToUnsigned l _ => [l]
  | .FloatPromote l _ => [l]
  | .FloatDemote l _ => [l]
  | .BitwiseAnd l r => [l, r]
  | .BitwiseOr l r => [l, r]
  | .BitwiseXor l r => [l, r]
  | .BitwiseNot l => [l]
  | .StackAlloc l => [l]
  | .Truncate l _ => [l]
  | .Deref l _ => [l]
  | .Transmute l _ => [l]
  | .Offset l r _ => [l, r]

theorem evalTree_eq (t : DecisionTree) (s : Substitutions) :
    evalTree t s = .error .decisionTreeTodo := by
  cases t <;> rfl

theorem isOk_false_iff {α : Type} {x : Except EvalError α} :
    isOk x = false ↔ ∃ e, x = .error e := by
  cases x <;> simp [isOk]

theorem mkBoth_ok {mk : Atom → Atom → Builtin} {l r : Except EvalError Atom} {out : Ast}
    (h : mkBoth mk l r = .ok out) :
    ∃ l2 r2, l = .ok l2 ∧ r = .ok r2 ∧ out = .builtin (mk l2 r2) := by
  cases l with
  | error e => simp [mkBoth] at h
  | ok l2 =>
    cases r with
    | error e => simp [mkBoth] at h
    | ok r2 =>
      simp only [mkBoth, Except.ok.injEq] at h
      exact ⟨l2, r2, rfl, rfl, h.symm⟩

theorem mkOne_ok {mk : Atom → Builtin} {l : Except EvalError Atom} {out : Ast}
    (h : mkOne mk l = .ok out) :
    ∃ l2, l = .ok l2 ∧ out = .builtin (mk l2) := by
  cases l with
  | error e => simp [mkOne] at h
  | ok l2 =>
    simp only [mkOne, Except.ok.injEq] at h
    exact ⟨l2, rfl, h.symm⟩

theorem mkOneTy_ok {mk : Atom → Nat → Builtin} {l : Except EvalError Atom} {typ : Nat}
    {out : Ast} (h : mkOneTy mk l typ = .ok out) :
    ∃ l2, l = .ok l2 ∧ out = .builtin (mk l2 typ) := by
  cases l with
  | error e => simp [mkOneTy] at h
  | ok l2 =>
    simp only [mkOneTy, Except.ok.injEq] at h
    exact ⟨l2, rfl, h.symm⟩

theorem mkBothTy_ok {mk : Atom → Atom → Nat → Builtin} {l r : Except EvalError Atom}
    {typ : Nat} {out : Ast} (h : mkBothTy mk l r typ = .ok out) :
    ∃ l2 r2, l = .ok l2 ∧ r = .ok r2 ∧ out = .builtin (mk l2 r2 typ) := by
  cases l with
  | error e => simp [mkBothTy] at h
  | ok l2 =>
    cases r with
    | error e => simp [mkBothTy] at h
    | ok r2 =>
      simp only [mkBothTy, Except.ok.injEq] at h
      exact ⟨l2, r2, rfl, rfl, h.symm⟩

theorem mapME_not_ok {α β : Type} (f : α → Except EvalError β) {l : List α} {x : α}
    (hx : x ∈ l) (h : isOk (f x) = false) : isOk (mapME f l) = false := by
  induction l with
  | nil => cases hx
  | cons a rest ih =>
    rcases List.mem_cons.mp hx with rfl | hx2
    · obtain ⟨e, he⟩ := isOk_false_iff.mp h
      simp [mapME, he, isOk]
    · cases hfa : f a with
      | error e => simp [mapME, hfa, isOk]
      | ok y =>
        obtain ⟨e, he⟩ := isOk_false_iff.mp (ih hx2)
        simp [mapME, hfa, he, isOk]

theorem containsAtomList_exists {l : List Atom} (h : containsAtomList l = true) :
    ∃ x ∈ l, containsAtom x = true := by
  induction l with
  | nil => simp [containsAtomList] at h
  | cons a rest ih =>
    simp only [containsAtomList, Bool.or_eq_true] at h
    rcases h with h | h
    · exact ⟨a, List.mem_cons_self a rest, h⟩
    · obtain ⟨x, hx, hc⟩ := ih h
      exact ⟨x, List.mem_cons_of_mem a hx, hc⟩

theorem containsAstList_exists {l : List Ast} (h : containsAstList l = true) :
    ∃ x ∈ l, containsAst x = true := by
  induction l with
  | nil => simp [containsAstList] at h
  | cons a rest ih =>
    simp only [containsAstList, Bool.or_eq_true] at h
    rcases h with h | h
    · exact ⟨a, List.mem_cons_self a rest, h⟩
    · obtain ⟨x, hx, hc⟩ := ih h
      exact ⟨x, List.mem_cons_of_mem a hx, hc⟩

theorem removeAll_not_mem {args : List DefinitionId} {id : DefinitionId}
    (s : Substitutions) (h : id ∉ args) : (removeAll args s).get id = s.get id := by
  induction args generalizing s with
  | nil => rfl
  | cons a rest ih =>
    have hne : id ≠ a := fun he => h (he ▸ List.mem_cons_self a rest)
    have h2 : id ∉ rest := fun hm => h (List.mem_cons_of_mem a hm)
    show (removeAll rest (s.remove a)).get id = s.get id
    rw [ih (s.remove a) h2]
    simp [Substitutions.remove, Substitutions.get, hne]

theorem removeAll_mem {args : List DefinitionId} {id : DefinitionId}
    (s : Substitutions) (h : id ∈ args) : (removeAll args s).get id = none := by
  induction args generalizing s with
  | nil => cases h
  | cons a rest ih =>
    show (removeAll rest (s.remove a)).get id = none
    by_cases hr : id ∈ rest
    · exact ih (s.remove a) hr
    · have ha : id = a := by
        rcases List.mem_cons.mp h with h1 | h1
        · exact h1
        · exact absurd h1 hr
      subst ha
      rw [removeAll_not_mem (s.remove id) hr]
      simp [Substitutions.remove, Substitutions.get]

theorem containsFatal (fuel : Nat) :
    (∀ a s, containsAtom a = true → isOk (evalAtom fuel a s) = false)
    ∧ (∀ t s, containsAst t = true → isOk (evalAst fuel t s) = false) := by
  induction fuel with
  | zero => constructor <;> intro x s _ <;> cases x <;> rfl
  | succ fuel ih =>
    obtain ⟨ihA, ihT⟩ := ih
    constructor
    · intro a s h
      cases a with
      | literal v => simp [containsAtom] at h
      | var id => simp [containsAtom] at h
      | lambda args body ct =>
        obtain ⟨e, he⟩ :=
          isOk_false_iff.mp (ihT body (removeAll args s) (by simpa [containsAtom] using h))
        simp [evalAtom, he, isOk]
      | foreign x => simp [containsAtom] at h
      | effect id => simp [evalAtom, isOk]
    · intro t s h
      cases t with
      | atom a =>
        obtain ⟨e, he⟩ := isOk_false_iff.mp (ihA a s (by simpa [containsAst] using h))
        simp [evalAst, he, isOk]
      | functionCall f args ct =>
        simp only [containsAst, Bool.or_eq_true] at h
        cases hf : evalAtom fuel f s with
        | error e => simp [evalAst, hf, isOk]
        | ok f2 =>
          rcases h with h | h
          · have hcontra := ihA f s h
            rw [hf] at hcontra
            simp [isOk] at hcontra
          · obtain ⟨x, hx, hc⟩ := containsAtomList_exists h
            obtain ⟨e, he⟩ :=
              isOk_false_iff.mp (mapME_not_ok (fun a => evalAtom fuel a s) hx (ihA x s hc))
            simp [evalAst, hf, he, isOk]
      | letE vid e b =>
        simp only [containsAst, Bool.or_eq_true] at h
        cases hel : evalAst fuel e s with
        | error er => simp [evalAst, hel, isOk]
        | ok e2 =>
          rcases h with h | h
          · have hcontra := ihT e s h
            rw [hel] at hcontra
            simp [isOk] at hcontra
          · obtain ⟨er, her⟩ := isOk_false_iff.mp (ihT b s h)
            simp [evalAst, hel, her, isOk]
      | ifE c tb eb =>
        simp only [containsAst, Bool.or_eq_true] at h
        cases hc2 : evalAtom fuel c s with
        | error er => simp [evalAst, hc2, isOk]
        | ok c2 =>
          rcases h with h | h | h
          · have hcontra := ihA c s h
            rw [hc2] at hcontra
            simp [isOk] at hcontra
          · obtain ⟨er, her⟩ := isOk_false_iff.mp (ihT tb s h)
            simp [evalAst, hc2, her, isOk]
          · cases htb : evalAst fuel tb s with
            | error er => simp [evalAst, hc2, htb, isOk]
            | ok t2 =>
              obtain ⟨er, her⟩ := isOk_false_iff.mp (ihT eb s h)
              simp [evalAst, hc2, htb, her, isOk]
      | matchE tree branches => simp [evalAst, evalTree_eq, isOk]
      | ret x =>
        obtain ⟨e, he⟩ := isOk_false_iff.mp (ihA x s (by simpa [containsAst] using h))
        simp [evalAst, he, isOk]
      | assignment l r =>
        simp only [containsAst, Bool.or_eq_true] at h
        cases hl : evalAtom fuel l s with
        | error er => simp [evalAst, hl, isOk]
        | ok l2 =>
          rcases h with h | h
          · have hcontra := ihA l s h
            rw [hl] at hcontra
            simp [isOk] at hcontra
          · obtain ⟨er, her⟩ := isOk_false_iff.mp (ihA r s h)
            simp [evalAst, hl, her, isOk]
      | memberAccess l fld =>
        obtain ⟨e, he⟩ := isOk_false_iff.mp (ihA l s (by simpa [containsAst] using h))
        simp [evalAst, he, isOk]
      | tuple fields =>
        obtain ⟨x, hx, hc⟩ := containsAstList_exists (by simpa [containsAst] using h)
        obtain ⟨e, he⟩ :=
          isOk_false_iff.mp (mapME_not_ok (fun f => evalAst fuel f s) hx (ihT x s hc))
        simp [evalAst, he, isOk]
      | builtin b =>
        cases hres : evalAst (fuel + 1) (.builtin b) s with
        | error e => simp [isOk]
        | ok r =>
          exfalso
          cases b <;>
            (simp only [evalAst] at hres
             simp only [containsAst, containsBuiltin, Bool.or_eq_true] at h
             first
              | (obtain ⟨l2, r2, hl, hr, -⟩ := mkBoth_ok hres
                 rcases h with h | h
                 · have hcontra := ihA _ s h
                   rw [hl] at hcontra
                   simp [isOk] at hcontra
                 · have hcontra := ihA _ s h
                   rw [hr] at hcontra
                   simp [isOk] at hcontra)
              | (obtain ⟨l2, hl, -⟩ := mkOne_ok hres
                 have hcontra := ihA _ s h
                 rw [hl] at hcontra
                 simp [isOk] at hcontra))
      | handle hv => simp [evalAst, isOk]

/-- C1: a FunctionCall whose function-position Atom reduces (under the
caller's environment) to a Lambda whose compile_time flag is set, or whose
call-site compile_time flag is set, is replaced by the result of reducing
the lambda body under the caller's environment extended with one binding
per (parameter id, evaluated argument), and then reducing that candidate
result a second time under the caller's original un-extended environment. -/
theorem compile_time_call_inlining (fuel : Nat) (f : Atom) (args : List Atom)
    (ct : Bool) (s : Substitutions) (params : List DefinitionId) (body : Ast)
    (lct : Bool) (args2 : List Atom) (cand : Ast)
    (hf : evalAtom fuel f s = .ok (.lambda params body lct))
    (hargs : mapME (fun a => evalAtom fuel a s) args = .ok args2)
    (hct : (lct || ct) = true)
    (hlen : params.length = args2.length)
    (hcand : evalAst fuel body (insertAll params args2 s) = .ok cand) :
    evalAst (fuel + 1) (.functionCall f args ct) s = evalAst fuel cand s := by
  simp [evalAst, hf, hargs, hct, hlen, hcand]

/-- Witness for C1: `((λ_ct x. x) 7)` reduces to the literal 7 via the
double reduction. -/
theorem compile_time_call_inlining_witness :
    evalAst 4 (.functionCall (.lambda [1] (.atom (.var 1)) true) [.literal 7] false)
        Substitutions.empty
      = evalAst 3 (.atom (.literal 7)) Substitutions.empty :=
  compile_time_call_inlining 3 (.lambda [1] (.atom (.var 1)) true) [.literal 7] false
    Substitutions.empty [1] (.atom (.var 1)) true [.literal 7] (.atom (.literal 7))
    rfl rfl rfl rfl rfl

/-- C2: evaluating a Lambda atom removes every one of its own parameter
ids from the substitution environment, reduces the body under the pruned
environment, and reconstructs the Lambda with its compile_time flag and
parameter list unchanged; every parameter id is unbound in the pruned
environment, so a nested lambda reusing an outer id never sees the outer
binding. -/
theorem lambda_capture_avoiding (fuel : Nat) (args : List DefinitionId) (body : Ast)
    (ct : Bool) (s : Substitutions) (body2 : Ast)
    (h : evalAst fuel body (removeAll args s) = .ok body2) :
    evalAtom (fuel + 1) (.lambda args body ct) s = .ok (.lambda args body2 ct)
    ∧ ∀ id ∈ args, (removeAll args s).get id = none := by
  refine ⟨by simp [evalAtom, h], ?_⟩
  intro id hid
  exact removeAll_mem s hid

/-- Witness for C2: under an environment binding id 1 to a literal, the
body of `λ x₁. x₁` is evaluated without that binding, so the variable
survives unsubstituted. -/
theorem lambda_capture_avoiding_witness :
    evalAtom 3 (.lambda [1] (.atom (.var 1)) true)
        (Substitutions.empty.insert 1 (.literal 9))
      = .ok (.lambda [1] (.atom (.var 1)) true) :=
  (lambda_capture_avoiding 2 [1] (.atom (.var 1)) true
    (Substitutions.empty.insert 1 (.literal 9)) (.atom (.var 1)) rfl).1

/-- C3: a Variable atom whose DefinitionId is bound in the substitution
environment evaluates to the stored value exactly once, without
re-evaluating the stored value against the current environment; an unbound
variable is returned unchanged. -/
theorem variable_single_substitution (fuel : Nat) (id : DefinitionId)
    (s : Substitutions) :
    (∀ a, s.get id = some a → evalAtom (fuel + 1) (.var id) s = .ok a)
    ∧ (s.get id = none → evalAtom (fuel + 1) (.var id) s = .ok (.var id)) := by
  constructor
  · intro a ha
    simp [evalAtom, ha]
  · intro ha
    simp [evalAtom, ha]

/-- Witness for C3: with id 1 bound to the variable `x₂` and id 2 bound to
a literal, looking up id 1 returns `x₂` itself, not the literal stored
under id 2 — substitution happens exactly once. -/
theorem variable_single_substitution_witness :
    evalAtom 1 (.var 1) ((Substitutions.empty.insert 2 (.literal 5)).insert 1 (.var 2))
      = .ok (.var 2) :=
  (variable_single_substitution 0 1
    ((Substitutions.empty.insert 2 (.literal 5)).insert 1 (.var 2))).1 (.var 2) rfl

/-- C4: an inlined compile-time call whose lambda parameter count differs
from the argument count halts with the fatal arity error and never returns
a result. -/
theorem arity_mismatch_fatal (fuel : Nat) (f : Atom) (args : List Atom)
    (ct : Bool) (s : Substitutions) (params : List DefinitionId) (body : Ast)
    (lct : Bool) (args2 : List Atom)
    (hf : evalAtom fuel f s = .ok (.lambda params body lct))
    (hargs : mapME (fun a => evalAtom fuel a s) args = .ok args2)
    (hct : (lct || ct) = true)
    (hlen : params.length ≠ args2.length) :
    evalAst (fuel + 1) (.functionCall f args ct) s = .error .arityMismatch := by
  simp [evalAst, hf, hargs, hct, hlen]

/-- Witness for C4: a two-parameter compile-time lambda applied to one
argument is a fatal arity mismatch. -/
theorem arity_mismatch_fatal_witness :
    evalAst 4 (.functionCall (.lambda [1, 2] (.atom (.literal 0)) true)
        [.literal 9] false) Substitutions.empty
      = .error .arityMismatch :=
  arity_mismatch_fatal 3 (.lambda [1, 2] (.atom (.literal 0)) true) [.literal 9] false
    Substitutions.empty [1, 2] (.atom (.literal 0)) true [.literal 9]
    rfl rfl rfl (by decide)

/-- C5: a FunctionCall whose reduced callee is not a Lambda with an
effective compile-time flag (in particular a compile-time-flagged call
whose reduced callee is, e.g., an Extern) is reconstructed with the
reduced function and reduced arguments — never inlined, with no error. -/
theorem non_compile_time_call_preserved (fuel : Nat) (f : Atom) (args : List Atom)
    (ct : Bool) (s : Substitutions) (f2 : Atom) (args2 : List Atom)
    (hf : evalAtom fuel f s = .ok f2)
    (hargs : mapME (fun a => evalAtom fuel a s) args = .ok args2)
    (hnc : ∀ params body lct, f2 = .lambda params body lct → (lct || ct) = false) :
    evalAst (fuel + 1) (.functionCall f args ct) s = .ok (.functionCall f2 args2 ct) := by
  cases f2 with
  | lambda params body lct =>
    have hfalse := hnc params body lct rfl
    simp [evalAst, hf, hargs, hfalse]
  | literal v => simp [evalAst, hf, hargs]
  | var id => simp [evalAst, hf, hargs]
  | foreign x => simp [evalAst, hf, hargs]
  | effect id => simp [evalAst, hf, hargs]

/-- Witness for C5: a call whose compile_time flag is set but whose callee
is an external symbol falls through silently to a reconstructed call. -/
theorem non_compile_time_call_preserved_witness :
    evalAst 2 (.functionCall (.foreign 4) [.literal 3] true) Substitutions.empty
      = .ok (.functionCall (.foreign 4) [.literal 3] true) :=
  non_compile_time_call_preserved 1 (.foreign 4) [.literal 3] true Substitutions.empty
    (.foreign 4) [.literal 3] rfl rfl (fun _ _ _ h => nomatch h)

/-- C6: for every Builtin node of every operation kind, a successful
evaluation yields a Builtin node of the same operation kind with the same
attached type descriptor, whose operands are exactly the reduced operand
Atoms — the operation is never executed. -/
theorem builtin_structure_preserved (fuel : Nat) (b : Builtin) (s : Substitutions)
    (r : Ast) (h : evalAst (fuel + 1) (.builtin b) s = .ok r) :
    ∃ b2, r = .builtin b2 ∧ builtinKind b2 = builtinKind b
      ∧ builtinTypeArg b2 = builtinTypeArg b
      ∧ mapME (fun a => evalAtom fuel a s) (builtinOperands b)
          = .ok (builtinOperands b2) := by
  cases b <;>
    (simp only [evalAst] at h
     first
      | (obtain ⟨l2, r2, hl, hr, rfl⟩ := mkBoth_ok h
         exact ⟨_, rfl, rfl, rfl, by simp [builtinOperands, mapME, hl, hr]⟩)
      | (obtain ⟨l2, hl, rfl⟩ := mkOne_ok h
         exact ⟨_, rfl, rfl, rfl, by simp [builtinOperands, mapME, hl]⟩))

/-- Witness for C6: an integer addition builtin over literals keeps its
tag and operands and is not folded. -/
theorem builtin_structure_preserved_witness :
    ∃ b2, Ast.builtin (Builtin.AddInt (.literal 1) (.literal 2)) = .builtin b2
      ∧ builtinKind b2 = builtinKind (.AddInt (.literal 1) (.literal 2))
      ∧ builtinTypeArg b2 = builtinTypeArg (.AddInt (.literal 1) (.literal 2))
      ∧ mapME (fun a => evalAtom 1 a Substitutions.empty)
          (builtinOperands (.AddInt (.literal 1) (.literal 2)))
          = .ok (builtinOperands b2) :=
  builtin_structure_preserved 1 (.AddInt (.literal 1) (.literal 2)) Substitutions.empty
    (.builtin (.AddInt (.literal 1) (.literal 2))) rfl

/-- C7: the claim states the decision-tree traversal propagates the
environment into all three DecisionTree forms (Leaf unchanged, Let with
the pattern binding, Switch with discriminant and subtrees reduced); the
source instead hits a `todo!()` panic on every DecisionTree form, so the
code fails fatally on every input rather than performing the traversal. -/
theorem decision_tree_stub_fatal :
    ∀ t s, evalTree t s = .error .decisionTreeTodo := evalTree_eq

/-- C8: any program syntactically containing an Effect atom or a Handle
expression fails with a fatal error under the pass, at every fuel, never
returning a result. -/
theorem effect_handle_fatal (fuel : Nat) (m : Mir) (h : containsMir m = true) :
    isOk (evaluateStaticCalls fuel m) = false := by
  simp only [containsMir, List.any_eq_true] at h
  obtain ⟨f, hf, hc⟩ := h
  have hfun : isOk ((fun f : DefinitionId × Ast =>
      match evalAst fuel f.2 Substitutions.empty with
      | .error e => .error e
      | .ok a => .ok (f.1, a)) f) = false := by
    obtain ⟨e, he⟩ :=
      isOk_false_iff.mp ((containsFatal fuel).2 f.2 Substitutions.empty hc)
    simp [he, isOk]
  obtain ⟨e, he⟩ := isOk_false_iff.mp
    (mapME_not_ok (fun f : DefinitionId × Ast =>
      match evalAst fuel f.2 Substitutions.empty with
      | .error e => .error e
      | .ok a => .ok (f.1, a)) hf hfun)
  simp [evaluateStaticCalls, he, isOk]

/-- Witness for C8: a one-function program whose body is an Effect atom is
rejected fatally. -/
theorem effect_handle_fatal_witness :
    isOk (evaluateStaticCalls 2 ⟨[(0, .atom (.effect 0))]⟩) = false :=
  effect_handle_fatal 2 ⟨[(0, .atom (.effect 0))]⟩ rfl

/-- C9: the claim states a program free of compile-time-reducible calls is
returned unchanged by the pass; the code instead panics (`todo!()`) on any
Match node, so a call-free program containing a pattern match is never
returned. This theorem certifies the code's behavior at the failing input:
one function whose body is a Match over a Leaf tree, with no calls at all,
makes the whole pass fail at every fuel. -/
theorem idempotence_broken_on_match (fuel : Nat) :
    evaluateStaticCalls (fuel + 1) ⟨[(0, .matchE (.leaf 0) [])]⟩
      = .error .decisionTreeTodo := by
  simp [evaluateStaticCalls, mapME, evalAst, evalTree_eq]

/-- C10: evaluating a Let does not remove the Let-bound DefinitionId from
the substitution environment before reducing its body: the body is reduced
under the caller's environment itself, and an outer binding for the same
id is still substituted for occurrences of the id inside the body. -/
theorem let_does_not_shadow (fuel : Nat) (vid : DefinitionId) (e b : Ast)
    (s : Substitutions) (e2 b2 : Ast)
    (he : evalAst (fuel + 2) e s = .ok e2)
    (hb : evalAst (fuel + 2) b s = .ok b2) :
    evalAst (fuel + 3) (.letE vid e b) s = .ok (.letE vid e2 b2)
    ∧ ∀ a, s.get vid = some a →
        evalAst (fuel + 3) (.letE vid e (.atom (.var vid))) s
          = .ok (.letE vid e2 (.atom a)) := by
  constructor
  · simp [evalAst, he, hb]
  · intro a ha
    simp [evalAst, evalAtom, he, ha]

/-- Witness for C10: with the Let-bound id 1 also bound to the literal 7
in the outer environment, the occurrence of id 1 in the Let body is
substituted by the outer literal. -/
theorem let_does_not_shadow_witness :
    evalAst 3 (.letE 1 (.atom (.literal 0)) (.atom (.var 1)))
        (Substitutions.empty.insert 1 (.literal 7))
      = .ok (.letE 1 (.atom (.literal 0)) (.atom (.literal 7))) :=
  (let_does_not_shadow 0 1 (.atom (.literal 0)) (.atom (.var 1))
      (Substitutions.empty.insert 1 (.literal 7)) (.atom (.literal 0))
      (.atom (.literal 7)) rfl rfl).2 (.literal 7) rfl

end MirEval
